import Mathlib

/-!
# Verification of the beer-crawler record-linkage and merge engine

Shallow embedding of `src/crawler/beer-merge.py` (class `BeerMerger`), the
record-linkage and merge engine described by the specification.  Python
strings are modelled as Lean `String`/`List Char`; Python `float` similarity
scores are modelled as exact rationals `ℚ` (every score produced by the code
is a ratio of small integers); Python dictionaries keyed by source are
modelled as insertion-ordered association lists (`List (String × String)`),
whose assignment operation `setKey` replaces an existing key in place and
otherwise appends, exactly like CPython's insertion-ordered `dict`.
Record fields are `Option String`, with Python truthiness (`None` and `""`
are both falsy) captured by `truthy`.

Modelling notes, stated once here:
* Python `str.lower()` is modelled per character, exact on ASCII
  (`pyLower`); Python additionally lowercases non-ASCII uppercase letters,
  which no evaluation in this development depends on.
* Python `str.split()` splits on whitespace; `Char.isWhitespace` covers the
  ASCII whitespace characters actually occurring in the data.
* Python `set` values produced by `has_variant_keywords` are modelled as the
  duplicate-free sublist of the fixed keyword list, in vocabulary order; two
  such sublists are equal iff they are equal as sets (`filter_eq_iff_toFinset`).
* `difflib.SequenceMatcher(None, a, b).ratio()` is modelled by `smRatio`:
  the documented Ratcliff/Obershelp behaviour (total size of the recursively
  chosen maximal matching blocks, earliest in `a` then earliest in `b`,
  doubled and divided by the total length).  The `autojunk` heuristic only
  activates for strings of length ≥ 200 and is not modelled; no theorem in
  this file evaluates `smRatio` on such strings.
-/

namespace BeerMerge

/-- Python truthiness of an optional string: `None` and `""` are falsy. -/
def truthy (o : Option String) : Bool := o.getD "" ≠ ""

/-- `o.getD ""`: the string a Python `dict.get(k, '')`-style access yields. -/
def getS (o : Option String) : String := o.getD ""

/-- Per-character model of Python `str.lower()` (exact on ASCII). -/
def pyLower (c : Char) : Char :=
  if 65 ≤ c.toNat ∧ c.toNat ≤ 90 then Char.ofNat (c.toNat + 32) else c

/-- The fixed punctuation set replaced by spaces in both normalizers:
`.,!?;:()[]{}"'-–` (the last character is the en dash U+2013). -/
def punctChars : List Char :=
  ['.', ',', '!', '?', ';', ':', '(', ')', '[', ']', '\x7b', '\x7d',
   '\"', '\'', '-', '–']

/-- One character of the punctuation-replacement pass. -/
def replPunct (c : Char) : Char := if c ∈ punctChars then ' ' else c

/-- Whitespace tokenizer accumulator: models Python `str.split()`. -/
def splitWsAux : List Char → List Char → List (List Char)
  | acc, [] => if acc = [] then [] else [acc.reverse]
  | acc, c :: t =>
    if c.isWhitespace then
      if acc = [] then splitWsAux [] t else acc.reverse :: splitWsAux [] t
    else splitWsAux (c :: acc) t

/-- Python `str.split()` with no argument: split on whitespace runs,
discarding empty tokens. -/
def splitWs (l : List Char) : List (List Char) := splitWsAux [] l

/-- Python `' '.join(words)` at the character-list level. -/
def joinWords : List (List Char) → List Char
  | [] => []
  | [w] => w
  | w :: ws => w ++ ' ' :: joinWords ws

/-- Python `str.strip()`: drop whitespace from both ends. -/
def pyStripL (l : List Char) : List Char :=
  ((l.dropWhile Char.isWhitespace).reverse.dropWhile Char.isWhitespace).reverse

/-- Python `str.strip()` on `String`. -/
def pyStrip (s : String) : String := ⟨pyStripL s.data⟩

/-- The producer stop-word list of `BeerMerger.normalize_text`. -/
def stopWords : List (List Char) :=
  ["microbrasserie".data, "brasserie".data, "inc".data, "inc.".data,
   "ltée".data, "ltd".data, "limited".data, "brewing".data, "brewery".data,
   "co".data, "company".data, "the".data, "le".data, "la".data, "les".data,
   "coopérative".data, "de".data, "travail".data, "brassicole".data,
   "brouërie".data]

/-- The word-level core of `normalize_text`: lower-case, replace punctuation
by spaces, split on whitespace, drop stop words. -/
def normTextWords (l : List Char) : List (List Char) :=
  (splitWs ((l.map pyLower).map replPunct)).filter (fun w => ¬ w ∈ stopWords)

/-- `BeerMerger.normalize_text`: the strict producer-name profile. -/
def normalize_text (text : String) : String :=
  if text = "" then ""
  else ⟨pyStripL (joinWords (normTextWords text.data))⟩

/-- The word-level core of `normalize_beer_name`: lower-case, replace
punctuation by spaces, split on whitespace (no stop-word removal). -/
def normNameWords (l : List Char) : List (List Char) :=
  splitWs ((l.map pyLower).map replPunct)

/-- `BeerMerger.normalize_beer_name`: the light product-name profile. -/
def normalize_beer_name (text : String) : String :=
  if text = "" then ""
  else ⟨pyStripL (joinWords (normNameWords text.data))⟩

/-- Python's `needle in hay` substring test on character lists. -/
def isSubList (needle : List Char) : List Char → Bool
  | [] => needle.isEmpty
  | c :: t => needle.isPrefixOf (c :: t) || isSubList needle t

/-- Python's `needle in hay` substring test on `String`. -/
def isSubstr (needle hay : String) : Bool := isSubList needle.data hay.data

/-- Length of the common run of equal characters at the heads of two lists. -/
def commonRun : List Char → List Char → Nat
  | a :: as, b :: bs => if a = b then commonRun as bs + 1 else 0
  | _, _ => 0

/-- `SequenceMatcher.find_longest_match` over the whole strings: the longest
matching block `(i, j, k)`, earliest in `a`, then earliest in `b` (scanning
both starts in ascending order and keeping strictly larger runs). -/
def findLongestBlock (a b : List Char) : Nat × Nat × Nat :=
  (List.range a.length).foldl
    (fun best i =>
      (List.range b.length).foldl
        (fun best j =>
          let k := commonRun (a.drop i) (b.drop j)
          if k > best.2.2 then (i, j, k) else best)
        best)
    (0, 0, 0)

/-- Total size of the matching blocks of `SequenceMatcher`: recursively take
the longest matching block and recurse on the parts before and after it.
The fuel `a.length + 1` always suffices because each recursive call strictly
shortens the first list. -/
def matchTotal : Nat → List Char → List Char → Nat
  | 0, _, _ => 0
  | fuel + 1, a, b =>
    let (i, j, k) := findLongestBlock a b
    if k = 0 then 0
    else
      matchTotal fuel (a.take i) (b.take j) + k +
        matchTotal fuel (a.drop (i + k)) (b.drop (j + k))

/-- Product of two rationals, written out on numerators and denominators
(extensionally `Rat.mul`; spelled via `mkRat` so that the kernel can
evaluate it). -/
def ratMul (a b : ℚ) : ℚ := mkRat (a.num * b.num) (a.den * b.den)

/-- Sum of two rationals, written out on numerators and denominators
(extensionally `Rat.add`; spelled via `mkRat` so that the kernel can
evaluate it). -/
def ratAdd (a b : ℚ) : ℚ :=
  mkRat (a.num * (b.den : ℤ) + b.num * (a.den : ℤ)) (a.den * b.den)

/-- `difflib.SequenceMatcher(None, a, b).ratio()` as an exact rational:
`2·M / T` where `M` is the total matched size and `T` the total length
(`1` when both strings are empty, per the CPython source). -/
def smRatio (a b : List Char) : ℚ :=
  let T := a.length + b.length
  if T = 0 then 1 else mkRat (2 * matchTotal (a.length + 1) a b : ℕ) T

/-- The fixed variant-keyword vocabulary of `has_variant_keywords`. -/
def variantKeywords : List String :=
  ["lime", "citron", "lemon", "framboise", "raspberry", "cerise", "cherry",
   "mangue", "mango", "passion", "pamplemousse", "grapefruit",
   "sure", "sour", "lactose", "vanille", "vanilla", "chocolat", "chocolate",
   "café", "coffee", "barrel aged", "vieilli", "aged", "nitro",
   "imperial", "double", "triple", "blonde", "brune", "rousse", "noire",
   "blanche", "wheat", "wit", "weizen", "stout", "porter",
   "pêche", "peach", "abricot", "apricot", "orange", "tangerine"]

/-- Lower-case a `String` per character (model of Python `str.lower()`). -/
def pyLowerS (s : String) : String := ⟨s.data.map pyLower⟩

/-- `BeerMerger.has_variant_keywords`: the flavour-variant signature of a
name.  The Python `set` is modelled as the duplicate-free sublist of the
fixed vocabulary, so equality of two signatures coincides with set
equality. -/
def has_variant_keywords (name : String) : List String :=
  if name = "" then []
  else variantKeywords.filter (fun k => isSubstr k (pyLowerS name))

/-- The nested `pack_info` sub-structure: each sub-map is created lazily by
the merge step, so each is optional. -/
structure PackInfo where
  urls : Option (List String) := none
  prices : Option (List (String × String)) := none
  photo_urls : Option (List (String × String)) := none
  descriptions : Option (List (String × String)) := none
deriving DecidableEq

/-- The raw-record scalar fields plus the canonical-record collection
fields.  A freshly scraped record has every collection field `none`; the
merge engine fills them in.  `Option String` distinguishes an absent key
from a present empty value exactly where CPython's `dict.get` does. -/
structure Beer where
  source : Option String := none
  url : Option String := none
  name : Option String := none
  producer : Option String := none
  style : Option String := none
  sub_style : Option String := none
  volume : Option String := none
  alcohol : Option String := none
  description : Option String := none
  photo_url : Option String := none
  price : Option String := none
  availability : Option String := none
  ibu : Option String := none
  region : Option String := none
  upc : Option String := none
  sources : Option (List String) := none
  urls : Option (List String) := none
  prices : Option (List (String × String)) := none
  descriptions : Option (List (String × String)) := none
  photo_urls : Option (List (String × String)) := none
  styles : Option (List (String × String)) := none
  sub_styles : Option (List (String × String)) := none
  pack_info : Option PackInfo := none
deriving DecidableEq

/-- `BeerMerger.get_package_format`: `"pack"` iff a packaging marker occurs
in the concatenation of lower-cased name, url and volume. -/
def get_package_format (beer : Beer) : String :=
  let name := pyLowerS (getS beer.name)
  let url := pyLowerS (getS beer.url)
  let volume := pyLowerS (getS beer.volume)
  let text := name ++ " " ++ url ++ " " ++ volume
  let pack_patterns : List String :=
    ["4-pack", "4pack", "4 pack",
     "6-pack", "6pack", "6 pack",
     "8-pack", "8pack", "8 pack",
     "12-pack", "12pack", "12 pack",
     "pack de", "x4", "x6", "x8", "x12",
     "caisse", "case"]
  if pack_patterns.any (fun p => isSubstr p text) then "pack" else "single"

/-- `BeerMerger.is_pack_url`: does a URL look like a pack-product URL? -/
def is_pack_url (url : String) : Bool :=
  let url_lower := pyLowerS url
  let pack_indicators : List String :=
    ["pack", "caisse", "case", "x4", "x6", "x8", "x12", "4-pack", "6-pack"]
  pack_indicators.any (fun i => isSubstr i url_lower)

/-- `BeerMerger.calculate_similarity`: the [0,1] similarity score between
two raw strings, in producer mode (`for_name = false`, strict
normalization) or name mode (`for_name = true`, light normalization plus
the token-overlap blend). -/
def calculate_similarity (str1 str2 : String) (for_name : Bool) : ℚ :=
  let norm1 := if for_name then normalize_beer_name str1 else normalize_text str1
  let norm2 := if for_name then normalize_beer_name str2 else normalize_text str2
  if norm1 = "" ∨ norm2 = "" then 0
  else if for_name ∧ isSubstr norm1 norm2 then
    -- norm2.startswith(norm1)
    if norm1.data.isPrefixOf norm2.data then 1 else mkRat 95 100
  else if isSubstr norm1 norm2 ∨ isSubstr norm2 norm1 then 1
  else
    let base_similarity := smRatio norm1.data norm2.data
    if for_name then
      -- words1 = set(norm1.split()), modelled as the deduplicated token list
      let words1 := (splitWs norm1.data).dedup
      let words2 := (splitWs norm2.data).dedup
      if words1 ≠ [] ∧ words2 ≠ [] then
        let word_overlap : ℚ :=
          mkRat ((words1.filter (fun w => w ∈ words2)).length : ℕ)
            (max words1.length words2.length)
        -- (base_similarity * 0.5) + (word_overlap * 0.5)
        ratAdd (ratMul base_similarity (mkRat 5 10))
          (ratMul word_overlap (mkRat 5 10))
      else base_similarity
    else base_similarity

/-- `BeerMerger.is_same_beer`: the match decision predicate, configured with
the producer and name thresholds `pt` and `nt`. -/
def is_same_beer (pt nt : ℚ) (beer1 beer2 : Beer) (ignore_format : Bool) :
    Bool :=
  let producer1 := getS beer1.producer
  let producer2 := getS beer2.producer
  if producer1 = "" ∨ producer2 = "" then false
  else if calculate_similarity producer1 producer2 false < pt then false
  else
    let name1 := getS beer1.name
    let name2 := getS beer2.name
    if name1 = "" ∨ name2 = "" then false
    else if calculate_similarity name1 name2 true < nt then false
    else if has_variant_keywords name1 ≠ has_variant_keywords name2 then false
    else if ¬ignore_format ∧ get_package_format beer1 ≠ get_package_format beer2
      then false
    else true

/-- `BeerMerger.choose_best_photo`: `None` on an empty map; otherwise for
singles the first non-pack, non-placeholder URL, then the first
non-placeholder URL, then the first stored value. -/
def choose_best_photo (photo_urls : List (String × String))
    (package_format : String) : Option String :=
  if photo_urls = [] then none
  else
    match (if package_format = "single" then
        photo_urls.find? (fun p =>
          p.2 ≠ "" && !is_pack_url p.2 && !isSubstr "placeholder" (pyLowerS p.2))
      else none) with
    | some p => some p.2
    | none =>
      match photo_urls.find? (fun p =>
          p.2 ≠ "" && !isSubstr "placeholder" (pyLowerS p.2)) with
      | some p => some p.2
      | none => (photo_urls.map Prod.snd).head?

/-- Python `s.replace(old, new)` for a non-empty pattern: scan left to
right, replacing non-overlapping occurrences.  Each step consumes at least
one character of the scanned list, so fuel `l.length + 1` suffices. -/
def replaceL : Nat → List Char → List Char → List Char → List Char
  | 0, _, _, l => l
  | _, _, _, [] => []
  | fuel + 1, old, new, c :: t =>
    if old.isPrefixOf (c :: t) then
      new ++ replaceL fuel old new ((c :: t).drop old.length)
    else c :: replaceL fuel old new t

/-- Python `s.replace(old, new)`.  (Python's behaviour for an empty pattern
— interleaving `new` everywhere — does not arise: the only patterns used by
the source are `"(pack)"` and `"pack"`.) -/
def pyReplace (s old new : String) : String :=
  if old = "" then s
  else ⟨replaceL (s.data.length + 1) old.data new.data s.data⟩

/-- Assignment `m[k] = v` on an insertion-ordered map (CPython `dict`):
replace the value of an existing key in place, otherwise append. -/
def setKey (m : List (String × String)) (k v : String) :
    List (String × String) :=
  match m with
  | [] => [(k, v)]
  | (k', v') :: rest =>
    if k' = k then (k, v) :: rest else (k', v') :: setKey rest k v

/-- Map lookup `m.get(k)` on an insertion-ordered association list. -/
def lookupKey (m : List (String × String)) (k : String) : Option String :=
  (m.find? (fun p => p.1 = k)).map Prod.snd

/-- `BeerMerger.merge_beer_data`: merge one incoming record into an
existing canonical record, following the Python statement order.  Each
`let` corresponds to one mutation of the `merged` dict. -/
def merge_beer_data (existing new_beer : Beer) : Beer :=
  -- merged = existing.copy(); lazily create 'sources'
  let sources0 := (existing.sources).getD [(existing.source).getD "unknown"]
  let new_source := (new_beer.source).getD "unknown"
  let sources1 :=
    if new_source ∈ sources0 then sources0 else sources0 ++ [new_source]
  let existing_format := get_package_format existing
  let new_format := get_package_format new_beer
  -- lazily create 'urls' from the existing record's own url
  let urls0 :=
    (existing.urls).getD (if truthy existing.url then [getS existing.url] else [])
  let urls1 :=
    if truthy new_beer.url ∧ getS new_beer.url ∉ urls0 then
      urls0 ++ [getS new_beer.url]
    else urls0
  -- lazily create 'pack_info'; route pack contributions into it
  let pi0 := (existing.pack_info).getD {}
  let pi1 :=
    if new_format = "pack" then
      let piUrls0 := (pi0.urls).getD []
      let piUrls1 :=
        if truthy new_beer.url ∧ getS new_beer.url ∉ piUrls0 then
          piUrls0 ++ [getS new_beer.url]
        else piUrls0
      let piPrices0 := (pi0.prices).getD []
      let piPrices1 :=
        if truthy new_beer.price then
          setKey piPrices0 new_source (getS new_beer.price)
        else piPrices0
      let piPhotos0 := (pi0.photo_urls).getD []
      let piPhotos1 :=
        if truthy new_beer.photo_url then
          setKey piPhotos0 new_source (getS new_beer.photo_url)
        else piPhotos0
      let piDescs1 :=
        if truthy new_beer.description then
          some (setKey ((pi0.descriptions).getD []) new_source
            (getS new_beer.description))
        else pi0.descriptions
      { urls := some piUrls1, prices := some piPrices1,
        photo_urls := some piPhotos1, descriptions := piDescs1 : PackInfo }
    else pi0
  -- simple fields: first non-empty wins; pack names are cleaned first
  let name1 :=
    if ¬truthy existing.name ∧ truthy new_beer.name then
      if new_format = "pack" then
        some (pyStrip (pyReplace (pyReplace (getS new_beer.name) "(pack)" "")
          "pack" ""))
      else some (getS new_beer.name)
    else existing.name
  let producer1 :=
    if ¬truthy existing.producer ∧ truthy new_beer.producer then
      some (getS new_beer.producer)
    else existing.producer
  let volume1 :=
    if ¬truthy existing.volume ∧ truthy new_beer.volume then
      some (getS new_beer.volume)
    else existing.volume
  let alcohol1 :=
    if ¬truthy existing.alcohol ∧ truthy new_beer.alcohol then
      some (getS new_beer.alcohol)
    else existing.alcohol
  -- prices: all single prices, keyed by source
  let prices0 := (existing.prices).getD []
  let prices1 :=
    if new_format ≠ "pack" then
      sources1.foldl
        (fun m src =>
          if existing.source = some src ∧ truthy existing.price then
            setKey m src (getS existing.price)
          else if src = new_source ∧ truthy new_beer.price then
            setKey m src (getS new_beer.price)
          else m)
        prices0
    else prices0
  -- descriptions (singles only)
  let descs0 := (existing.descriptions).getD []
  let descs1 :=
    if truthy existing.description ∧ existing_format ≠ "pack" then
      setKey descs0 ((existing.source).getD "unknown")
        (getS existing.description)
    else descs0
  let descs2 :=
    if truthy new_beer.description ∧ new_format ≠ "pack" then
      setKey descs1 new_source (getS new_beer.description)
    else descs1
  -- photo_urls (singles only)
  let photos0 := (existing.photo_urls).getD []
  let photos1 :=
    if truthy existing.photo_url ∧ existing_format ≠ "pack" then
      setKey photos0 ((existing.source).getD "unknown")
        (getS existing.photo_url)
    else photos0
  let photos2 :=
    if truthy new_beer.photo_url ∧ new_format ≠ "pack" then
      setKey photos1 new_source (getS new_beer.photo_url)
    else photos1
  -- the photo_url scalar is recomputed only when photo_urls is non-empty
  let photo1 :=
    if photos2 ≠ [] then choose_best_photo photos2 "single"
    else existing.photo_url
  -- styles (singles only)
  let styles0 := (existing.styles).getD []
  let styles1 :=
    if truthy existing.style ∧ existing_format ≠ "pack" then
      setKey styles0 ((existing.source).getD "unknown") (getS existing.style)
    else styles0
  let styles2 :=
    if truthy new_beer.style ∧ new_format ≠ "pack" then
      setKey styles1 new_source (getS new_beer.style)
    else styles1
  -- sub_styles (no format restriction in the source)
  let subs0 := (existing.sub_styles).getD []
  let subs1 :=
    if truthy existing.sub_style then
      setKey subs0 ((existing.source).getD "unknown")
        (getS existing.sub_style)
    else subs0
  let subs2 :=
    if truthy new_beer.sub_style then
      setKey subs1 new_source (getS new_beer.sub_style)
    else subs1
  -- optional passthrough fields: first non-empty wins
  let ibu1 :=
    if truthy new_beer.ibu ∧ ¬truthy existing.ibu then
      some (getS new_beer.ibu)
    else existing.ibu
  let region1 :=
    if truthy new_beer.region ∧ ¬truthy existing.region then
      some (getS new_beer.region)
    else existing.region
  let avail1 :=
    if truthy new_beer.availability ∧ ¬truthy existing.availability then
      some (getS new_beer.availability)
    else existing.availability
  let upc1 :=
    if truthy new_beer.upc ∧ ¬truthy existing.upc then
      some (getS new_beer.upc)
    else existing.upc
  { existing with
    sources := some sources1
    urls := some urls1
    pack_info := some pi1
    name := name1
    producer := producer1
    volume := volume1
    alcohol := alcohol1
    prices := some prices1
    descriptions := some descs2
    photo_urls := some photos2
    photo_url := photo1
    styles := some styles2
    sub_styles := some subs2
    ibu := ibu1
    region := region1
    availability := avail1
    upc := upc1 }

/-- One probe of the incremental merge: linearly scan the canonical list,
replace the first entry matching the incoming record (with
`ignore_format = true`) by the merged entry, else append the record. -/
def mergeInto (pt nt : ℚ) (beer : Beer) : List Beer → List Beer
  | [] => [beer]
  | existing :: rest =>
    if is_same_beer pt nt beer existing true then
      merge_beer_data existing beer :: rest
    else existing :: mergeInto pt nt beer rest

/-- `BeerMerger.merge_beers` (the in-memory fold, lines 359–381): fold the
source-tagged record stream into the canonical list. -/
def merge_beers (pt nt : ℚ) (beers : List Beer) : List Beer :=
  beers.foldl (fun canon b => mergeInto pt nt b canon) []

/-! ## Characterization of the merge step, field by field

Derived abbreviations for the intermediate values of `merge_beer_data`,
and one `rfl` lemma per field of the merged record. -/

/-- The key under which the incoming record contributes to per-source maps:
`new_beer.get('source', 'unknown')`. -/
def newSrc (n : Beer) : String := (n.source).getD "unknown"

/-- The key under which the existing record contributes to per-source maps:
`existing.get('source', 'unknown')`. -/
def exSrc (e : Beer) : String := (e.source).getD "unknown"

/-- The sources list of a canonical record, after its lazy creation. -/
def srcList (e : Beer) : List String := (e.sources).getD [exSrc e]

/-- The urls list of a canonical record, after its lazy creation. -/
def urlList (e : Beer) : List String :=
  (e.urls).getD (if truthy e.url then [getS e.url] else [])

/-- The sources list after a merge step. -/
def mergedSources (e n : Beer) : List String :=
  if newSrc n ∈ srcList e then srcList e else srcList e ++ [newSrc n]

/-- The `descriptions` map after the existing record's own contribution. -/
def descsExisting (e : Beer) : List (String × String) :=
  if truthy e.description ∧ get_package_format e ≠ "pack" then
    setKey ((e.descriptions).getD []) (exSrc e) (getS e.description)
  else (e.descriptions).getD []

/-- The `styles` map after the existing record's own contribution. -/
def stylesExisting (e : Beer) : List (String × String) :=
  if truthy e.style ∧ get_package_format e ≠ "pack" then
    setKey ((e.styles).getD []) (exSrc e) (getS e.style)
  else (e.styles).getD []

/-- The `photo_urls` map after the existing record's own contribution. -/
def photosExisting (e : Beer) : List (String × String) :=
  if truthy e.photo_url ∧ get_package_format e ≠ "pack" then
    setKey ((e.photo_urls).getD []) (exSrc e) (getS e.photo_url)
  else (e.photo_urls).getD []

/-- The `sub_styles` map after the existing record's own contribution
(note: no package-format restriction, mirroring the source). -/
def subsExisting (e : Beer) : List (String × String) :=
  if truthy e.sub_style then
    setKey ((e.sub_styles).getD []) (exSrc e) (getS e.sub_style)
  else (e.sub_styles).getD []

/-- The `photo_urls` map after a full merge step. -/
def mergedPhotos (e n : Beer) : List (String × String) :=
  if truthy n.photo_url ∧ get_package_format n ≠ "pack" then
    setKey (photosExisting e) (newSrc n) (getS n.photo_url)
  else photosExisting e

/-- The `prices` map after a full merge step. -/
def mergedPrices (e n : Beer) : List (String × String) :=
  if get_package_format n ≠ "pack" then
    (mergedSources e n).foldl
      (fun m src =>
        if e.source = some src ∧ truthy e.price then
          setKey m src (getS e.price)
        else if src = newSrc n ∧ truthy n.price then
          setKey m src (getS n.price)
        else m)
      ((e.prices).getD [])
  else (e.prices).getD []

/-- The `pack_info` sub-structure after a full merge step. -/
def mergedPackInfo (e n : Beer) : PackInfo :=
  if get_package_format n = "pack" then
    { urls := some (if truthy n.url ∧
          getS n.url ∉ ((((e.pack_info).getD {}).urls).getD []) then
          ((((e.pack_info).getD {}).urls).getD []) ++ [getS n.url]
        else (((e.pack_info).getD {}).urls).getD [])
      prices := some (if truthy n.price then
          setKey ((((e.pack_info).getD {}).prices).getD []) (newSrc n)
            (getS n.price)
        else (((e.pack_info).getD {}).prices).getD [])
      photo_urls := some (if truthy n.photo_url then
          setKey ((((e.pack_info).getD {}).photo_urls).getD []) (newSrc n)
            (getS n.photo_url)
        else (((e.pack_info).getD {}).photo_urls).getD [])
      descriptions := if truthy n.description then
          some (setKey ((((e.pack_info).getD {}).descriptions).getD [])
            (newSrc n) (getS n.description))
        else ((e.pack_info).getD {}).descriptions }
  else (e.pack_info).getD {}

lemma newSrc_eq_exSrc (b : Beer) : newSrc b = exSrc b := rfl

lemma mbd_sources (e n : Beer) :
    (merge_beer_data e n).sources = some (mergedSources e n) := rfl

lemma mbd_urls (e n : Beer) :
    (merge_beer_data e n).urls =
      some (if truthy n.url ∧ getS n.url ∉ urlList e then
              urlList e ++ [getS n.url]
            else urlList e) := rfl

lemma mbd_pack_info (e n : Beer) :
    (merge_beer_data e n).pack_info = some (mergedPackInfo e n) := rfl

lemma mbd_name (e n : Beer) :
    (merge_beer_data e n).name =
      (if ¬truthy e.name ∧ truthy n.name then
        if get_package_format n = "pack" then
          some (pyStrip (pyReplace (pyReplace (getS n.name) "(pack)" "")
            "pack" ""))
        else some (getS n.name)
      else e.name) := rfl

lemma mbd_producer (e n : Beer) :
    (merge_beer_data e n).producer =
      (if ¬truthy e.producer ∧ truthy n.producer then some (getS n.producer)
       else e.producer) := rfl

lemma mbd_volume (e n : Beer) :
    (merge_beer_data e n).volume =
      (if ¬truthy e.volume ∧ truthy n.volume then some (getS n.volume)
       else e.volume) := rfl

lemma mbd_alcohol (e n : Beer) :
    (merge_beer_data e n).alcohol =
      (if ¬truthy e.alcohol ∧ truthy n.alcohol then some (getS n.alcohol)
       else e.alcohol) := rfl

lemma mbd_prices (e n : Beer) :
    (merge_beer_data e n).prices = some (mergedPrices e n) := rfl

lemma mbd_descriptions (e n : Beer) :
    (merge_beer_data e n).descriptions =
      some (if truthy n.description ∧ get_package_format n ≠ "pack" then
              setKey (descsExisting e) (newSrc n) (getS n.description)
            else descsExisting e) := rfl

lemma mbd_photo_urls (e n : Beer) :
    (merge_beer_data e n).photo_urls = some (mergedPhotos e n) := rfl

lemma mbd_photo_url (e n : Beer) :
    (merge_beer_data e n).photo_url =
      (if mergedPhotos e n ≠ [] then
        choose_best_photo (mergedPhotos e n) "single"
      else e.photo_url) := rfl

lemma mbd_styles (e n : Beer) :
    (merge_beer_data e n).styles =
      some (if truthy n.style ∧ get_package_format n ≠ "pack" then
              setKey (stylesExisting e) (newSrc n) (getS n.style)
            else stylesExisting e) := rfl

lemma mbd_sub_styles (e n : Beer) :
    (merge_beer_data e n).sub_styles =
      some (if truthy n.sub_style then
              setKey (subsExisting e) (newSrc n) (getS n.sub_style)
            else subsExisting e) := rfl

lemma mbd_ibu (e n : Beer) :
    (merge_beer_data e n).ibu =
      (if truthy n.ibu ∧ ¬truthy e.ibu then some (getS n.ibu)
       else e.ibu) := rfl

lemma mbd_region (e n : Beer) :
    (merge_beer_data e n).region =
      (if truthy n.region ∧ ¬truthy e.region then some (getS n.region)
       else e.region) := rfl

lemma mbd_availability (e n : Beer) :
    (merge_beer_data e n).availability =
      (if truthy n.availability ∧ ¬truthy e.availability then
        some (getS n.availability)
       else e.availability) := rfl

lemma mbd_upc (e n : Beer) :
    (merge_beer_data e n).upc =
      (if truthy n.upc ∧ ¬truthy e.upc then some (getS n.upc)
       else e.upc) := rfl

lemma mbd_source (e n : Beer) : (merge_beer_data e n).source = e.source := rfl

lemma mbd_url (e n : Beer) : (merge_beer_data e n).url = e.url := rfl

lemma mbd_style (e n : Beer) : (merge_beer_data e n).style = e.style := rfl

lemma mbd_sub_style (e n : Beer) :
    (merge_beer_data e n).sub_style = e.sub_style := rfl

lemma mbd_description (e n : Beer) :
    (merge_beer_data e n).description = e.description := rfl

lemma mbd_price (e n : Beer) : (merge_beer_data e n).price = e.price := rfl

/-! ## Association-list lemmas -/

lemma setKey_nil (k v : String) : setKey [] k v = [(k, v)] := rfl

lemma setKey_pair {k1 k2 : String} (h : k1 ≠ k2) (v1 v2 : String) :
    setKey [(k1, v1)] k2 v2 = [(k1, v1), (k2, v2)] := by
  simp [setKey, h]

lemma length_le_setKey (m : List (String × String)) (k v : String) :
    m.length ≤ (setKey m k v).length := by
  induction m with
  | nil => simp [setKey]
  | cons p rest ih =>
    obtain ⟨k', v'⟩ := p
    by_cases h : k' = k
    · simp [setKey, h]
    · simp only [setKey, if_neg h, List.length_cons]
      omega

lemma lookupKey_setKey_self (m : List (String × String)) (k v : String) :
    lookupKey (setKey m k v) k = some v := by
  induction m with
  | nil => simp [setKey, lookupKey]
  | cons p rest ih =>
    obtain ⟨k', v'⟩ := p
    by_cases h : k' = k
    · simp [setKey, h, lookupKey, List.find?]
    · simp only [setKey, if_neg h, lookupKey, List.find?, h,
        decide_eq_false, Bool.false_eq_true]
      simpa [lookupKey] using ih

lemma lookupKey_setKey_ne (m : List (String × String)) (k v k' : String)
    (h : k' ≠ k) : lookupKey (setKey m k v) k' = lookupKey m k' := by
  induction m with
  | nil => simp [setKey, lookupKey, List.find?, Ne.symm h]
  | cons p rest ih =>
    obtain ⟨k1, v1⟩ := p
    by_cases h1 : k1 = k
    · subst h1
      simp [setKey, lookupKey, List.find?, Ne.symm h]
    · by_cases h2 : k1 = k'
      · subst h2
        simp [setKey, h1, lookupKey, List.find?]
      · simp only [setKey, if_neg h1, lookupKey, List.find?, h2,
          decide_eq_false, Bool.false_eq_true] at ih ⊢
        exact ih

/-! ## General helper lemmas -/

lemma truthy_iff (o : Option String) : truthy o = true ↔ getS o ≠ "" := by
  simp [truthy, getS]

lemma truthy_false_iff (o : Option String) : truthy o = false ↔ getS o = "" := by
  simp [truthy, getS]

lemma choose_best_photo_mem (m : List (String × String)) (fmt : String)
    (hm : m ≠ []) :
    ∃ u, choose_best_photo m fmt = some u ∧ u ∈ m.map Prod.snd := by
  unfold choose_best_photo
  rw [if_neg hm]
  by_cases hf : fmt = "single"
  · rw [if_pos hf]
    cases h1 : m.find? (fun p =>
        p.2 ≠ "" && !is_pack_url p.2 &&
          !isSubstr "placeholder" (pyLowerS p.2)) with
    | some p =>
      exact ⟨p.2, rfl, List.mem_map_of_mem Prod.snd
        (List.mem_of_find?_eq_some h1)⟩
    | none =>
      cases h2 : m.find? (fun p =>
          p.2 ≠ "" && !isSubstr "placeholder" (pyLowerS p.2)) with
      | some p =>
        exact ⟨p.2, rfl, List.mem_map_of_mem Prod.snd
          (List.mem_of_find?_eq_some h2)⟩
      | none =>
        have hmap : m.map Prod.snd ≠ [] := by simpa using hm
        refine ⟨(m.map Prod.snd).head hmap, ?_, List.head_mem hmap⟩
        rw [List.head?_eq_head hmap]
  · rw [if_neg hf]
    cases h2 : m.find? (fun p =>
        p.2 ≠ "" && !isSubstr "placeholder" (pyLowerS p.2)) with
    | some p =>
      exact ⟨p.2, rfl, List.mem_map_of_mem Prod.snd
        (List.mem_of_find?_eq_some h2)⟩
    | none =>
      have hmap : m.map Prod.snd ≠ [] := by simpa using hm
      refine ⟨(m.map Prod.snd).head hmap, ?_, List.head_mem hmap⟩
      rw [List.head?_eq_head hmap]

lemma hvk_eq_filter (n : String) :
    has_variant_keywords n =
      variantKeywords.filter (fun k => isSubstr k (pyLowerS n)) := by
  by_cases h : n = ""
  · subst h; decide
  · simp [has_variant_keywords, h]

lemma filter_toFinset_inj {L : List String} (hL : L.Nodup) {p q : String → Bool}
    (h : (L.filter p).toFinset = (L.filter q).toFinset) :
    L.filter p = L.filter q := by
  induction L with
  | nil => rfl
  | cons a t ih =>
    have hat : a ∉ t := (List.nodup_cons.mp hL).1
    have ht : t.Nodup := (List.nodup_cons.mp hL).2
    by_cases hp : p a <;> by_cases hq : q a
    · rw [List.filter_cons_of_pos hp, List.filter_cons_of_pos hq] at h ⊢
      have hfp : a ∉ t.filter p := fun hx => hat (List.mem_of_mem_filter hx)
      have hfq : a ∉ t.filter q := fun hx => hat (List.mem_of_mem_filter hx)
      have hsets : (t.filter p).toFinset = (t.filter q).toFinset := by
        ext x
        by_cases hx : x = a
        · subst hx
          simp only [List.mem_toFinset]
          exact iff_of_false hfp hfq
        · have := Finset.ext_iff.mp h x
          simpa [hx] using this
      rw [ih ht hsets]
    · exfalso
      have ha : a ∈ (List.filter q (a :: t)).toFinset := by
        rw [← h]
        simp [List.filter_cons_of_pos hp]
      rw [List.filter_cons_of_neg hq] at ha
      exact hat (List.mem_of_mem_filter (List.mem_toFinset.mp ha))
    · exfalso
      have ha : a ∈ (List.filter p (a :: t)).toFinset := by
        rw [h]
        simp [List.filter_cons_of_pos hq]
      rw [List.filter_cons_of_neg hp] at ha
      exact hat (List.mem_of_mem_filter (List.mem_toFinset.mp ha))
    · rw [List.filter_cons_of_neg hp, List.filter_cons_of_neg hq] at h ⊢
      exact ih ht h

lemma variant_set_iff (n1 n2 : String) :
    (has_variant_keywords n1).toFinset = (has_variant_keywords n2).toFinset ↔
      has_variant_keywords n1 = has_variant_keywords n2 := by
  constructor
  · intro h
    rw [hvk_eq_filter, hvk_eq_filter] at h ⊢
    exact filter_toFinset_inj (by decide) h
  · intro h; rw [h]

/-! ## The claims -/

/-- The default producer-similarity threshold of the engine (0.6). -/
def default_producer_threshold : ℚ := mkRat 6 10

/-- The default name-similarity threshold of the engine (0.8). -/
def default_name_threshold : ℚ := mkRat 8 10

/-- C1: `is_same_product(a, b, ignore_format)` returns true iff: both
producers are non-empty, producer-mode similarity is at least the producer
threshold, both names are non-empty, name-mode similarity is at least the
name threshold, the variant signatures are equal as sets, and — unless
`ignore_format` — the package formats agree.  In particular a variant
mismatch vetoes the match even at similarity 1.0, since the verdict is
exactly this conjunction. -/
theorem is_same_beer_iff (pt nt : ℚ) (b1 b2 : Beer) (ig : Bool) :
    is_same_beer pt nt b1 b2 ig = true ↔
      (getS b1.producer ≠ "" ∧ getS b2.producer ≠ "" ∧
       pt ≤ calculate_similarity (getS b1.producer) (getS b2.producer) false ∧
       getS b1.name ≠ "" ∧ getS b2.name ≠ "" ∧
       nt ≤ calculate_similarity (getS b1.name) (getS b2.name) true ∧
       (has_variant_keywords (getS b1.name)).toFinset =
         (has_variant_keywords (getS b2.name)).toFinset ∧
       (ig = false → get_package_format b1 = get_package_format b2)) := by
  simp only [is_same_beer, variant_set_iff]
  split_ifs with h1 h2 h3 h4 h5 h6
  · simp only [Bool.false_eq_true, false_iff]
    rintro ⟨hp1, hp2, -⟩
    tauto
  · simp only [Bool.false_eq_true, false_iff]
    rintro ⟨-, -, hle, -⟩
    exact absurd h2 (not_lt.mpr hle)
  · simp only [Bool.false_eq_true, false_iff]
    rintro ⟨-, -, -, hn1, hn2, -⟩
    tauto
  · simp only [Bool.false_eq_true, false_iff]
    rintro ⟨-, -, -, -, -, hle, -⟩
    exact absurd h4 (not_lt.mpr hle)
  · simp only [Bool.false_eq_true, false_iff]
    rintro ⟨-, -, -, -, -, -, hv, -⟩
    exact h5 hv
  · simp only [Bool.false_eq_true, false_iff]
    rintro ⟨-, -, -, -, -, -, -, hfm⟩
    refine h6.2 (hfm ?_)
    revert h6
    cases ig <;> simp
  · simp only [true_iff]
    push_neg at h1 h3
    refine ⟨h1.1, h1.2, not_lt.mp h2, h3.1, h3.2, not_lt.mp h4,
      not_not.mp h5, ?_⟩
    intro hig
    by_contra hne
    exact h6 ⟨by simp [hig], hne⟩

/-- Witness for C1: the two directions at a concrete pair of records. -/
theorem is_same_beer_iff_witness :
    is_same_beer default_producer_threshold default_name_threshold
      { producer := some "Brasserie Exemple", name := some "India Pale Ale" }
      { producer := some "Brasserie Exemple", name := some "India Pale Ale" }
      true = true :=
  (is_same_beer_iff default_producer_threshold default_name_threshold
    _ _ true).mpr
    ⟨by decide, by decide, by decide, by decide, by decide, by decide,
     rfl, by intro h; cases h⟩

/-- C3 counterexample: with `str1 = "super x"` and `str2 = "x"`, both
normalizations are non-empty, one is a substring of the other, and the
longer does not start with the shorter — so the claim's symmetric reading
demands 0.95 — yet the code returns 1.0 (the asymmetric 0.95 branch only
fires when the *first* argument is contained in the second). -/
theorem calculate_similarity_containment_cex :
    normalize_beer_name "super x" = "super x" ∧
    normalize_beer_name "x" = "x" ∧
    isSubstr "x" "super x" = true ∧
    ("x".data.isPrefixOf "super x".data) = false ∧
    calculate_similarity "super x" "x" true = 1 ∧
    (1 : ℚ) ≠ mkRat 95 100 := by decide

/-- C3 as amended: in name mode, when the *first* normalized string is
contained in the second the score is 1.0 for prefix containment and 0.95
otherwise; when only the second is contained in the first the score is 1.0
unconditionally (the 0.95 penalty is not symmetric).  In producer mode
containment in either direction scores 1.0. -/
theorem calculate_similarity_containment (s1 s2 : String) :
    (normalize_beer_name s1 ≠ "" → normalize_beer_name s2 ≠ "" →
      isSubstr (normalize_beer_name s1) (normalize_beer_name s2) = true →
      calculate_similarity s1 s2 true =
        (if (normalize_beer_name s1).data.isPrefixOf
            (normalize_beer_name s2).data then 1 else mkRat 95 100)) ∧
    (normalize_beer_name s1 ≠ "" → normalize_beer_name s2 ≠ "" →
      isSubstr (normalize_beer_name s1) (normalize_beer_name s2) = false →
      isSubstr (normalize_beer_name s2) (normalize_beer_name s1) = true →
      calculate_similarity s1 s2 true = 1) ∧
    (normalize_text s1 ≠ "" → normalize_text s2 ≠ "" →
      (isSubstr (normalize_text s1) (normalize_text s2) = true ∨
       isSubstr (normalize_text s2) (normalize_text s1) = true) →
      calculate_similarity s1 s2 false = 1) := by
  refine ⟨?_, ?_, ?_⟩
  · intro h1 h2 hsub
    simp [calculate_similarity, h1, h2, hsub]
  · intro h1 h2 hsub1 hsub2
    simp [calculate_similarity, h1, h2, hsub1, hsub2]
  · intro h1 h2 hsub
    rcases hsub with hs | hs <;>
      simp [calculate_similarity, h1, h2, hs]

/-- Witness for C3 (amended): the three containment branches at concrete
strings. -/
theorem calculate_similarity_containment_witness :
    calculate_similarity "india" "india pale ale" true = 1 ∧
    calculate_similarity "pale ale" "india pale ale" true = mkRat 95 100 ∧
    calculate_similarity "india pale ale" "pale ale" true = 1 ∧
    calculate_similarity "Brasserie Exemple" "Exemple Brewing Inc." false =
      1 := by
  refine ⟨?_, ?_, ?_, ?_⟩
  · have h := (calculate_similarity_containment "india" "india pale ale").1
      (by decide) (by decide) (by decide)
    rw [h]; decide
  · have h := (calculate_similarity_containment "pale ale"
      "india pale ale").1 (by decide) (by decide) (by decide)
    rw [h]; decide
  · exact (calculate_similarity_containment "india pale ale" "pale ale").2.1
      (by decide) (by decide) (by decide) (by decide)
  · exact (calculate_similarity_containment "Brasserie Exemple"
      "Exemple Brewing Inc.").2.2 (by decide) (by decide)
      (Or.inl (by decide))

/-- Source X's record of the C8 scenario. -/
def scenarioX : Beer :=
  { source := some "X", producer := some "Brasserie Exemple",
    name := some "India Pale Ale", volume := some "473ml",
    price := some "$5.00" }

/-- Source Y's record of the C8 scenario. -/
def scenarioY : Beer :=
  { source := some "Y", producer := some "Exemple Brewing Inc.",
    name := some "India Pale Ale", volume := some "473ml",
    price := some "$4.75" }

/-- C8: with the default thresholds, the two-record stream X-then-Y merges
into exactly one canonical record with `sources = [X, Y]`,
`prices = {X: $5.00, Y: $4.75}`, the shared name, and the first-seen
producer. -/
theorem scenario_merges_to_one :
    (merge_beers default_producer_threshold default_name_threshold
        [scenarioX, scenarioY]).map
      (fun b => (b.sources, b.prices, b.name, b.producer)) =
    [(some ["X", "Y"], some [("X", "$5.00"), ("Y", "$4.75")],
      some "India Pale Ale", some "Brasserie Exemple")] := by decide

/-- C9: `choose_best_photo` is total: it returns `None` exactly on the
empty map, and otherwise returns one of the stored URL values — including
when every stored URL is a pack photo or a placeholder. -/
theorem choose_best_photo_total (m : List (String × String)) (fmt : String) :
    (choose_best_photo m fmt = none ↔ m = []) ∧
    (m ≠ [] → ∃ u, choose_best_photo m fmt = some u ∧ u ∈ m.map Prod.snd) := by
  constructor
  · constructor
    · intro h
      by_contra hm
      obtain ⟨u, hu, -⟩ := choose_best_photo_mem m fmt hm
      rw [h] at hu
      cases hu
    · intro h
      subst h
      rfl
  · exact choose_best_photo_mem m fmt

/-- Witness for C9: a map whose only entries are a pack photo and a
placeholder still yields a stored value. -/
theorem choose_best_photo_total_witness :
    (choose_best_photo [("a", "http://s/x4-case.jpg"),
        ("b", "http://s/placeholder.png")] "single" = none ↔
      ([("a", "http://s/x4-case.jpg"), ("b", "http://s/placeholder.png")] :
        List (String × String)) = []) ∧
    (∃ u, choose_best_photo [("a", "http://s/x4-case.jpg"),
        ("b", "http://s/placeholder.png")] "single" = some u ∧
      u ∈ [("a", "http://s/x4-case.jpg"),
        ("b", "http://s/placeholder.png")].map Prod.snd) :=
  ⟨(choose_best_photo_total _ _).1,
   (choose_best_photo_total _ _).2 (by decide)⟩

/-- A pack-format canonical record carrying a price (for C2). -/
def packExisting : Beer :=
  { source := some "a", producer := some "p", name := some "beer 4-pack",
    price := some "$9.00" }

/-- A single-format incoming record matching `packExisting` (for C2). -/
def singleIncoming : Beer :=
  { source := some "b", producer := some "p", name := some "beer" }

/-- A single-format canonical record (for C2). -/
def singleExisting : Beer :=
  { source := some "a", producer := some "q", name := some "ale" }

/-- A pack-format incoming record carrying a sub_style (for C2). -/
def packIncoming : Beer :=
  { source := some "b", producer := some "q", name := some "ale 6-pack",
    sub_style := some "NEIPA" }

/-- C2 counterexample: two genuine merge steps in which top-level per-source
maps receive entries tied to pack-classified contributions.  First, the
pack-classified existing record's price lands in the top-level `prices` map
when a single merges into it (the prices loop checks only the incoming
format).  Second, a pack-classified incoming record's sub_style lands in
the top-level `sub_styles` map (that map has no format guard at all). -/
theorem merge_pack_routing_cex :
    get_package_format packExisting = "pack" ∧
    (merge_beers default_producer_threshold default_name_threshold
        [packExisting, singleIncoming]).map (fun b => b.prices) =
      [some [("a", "$9.00")]] ∧
    get_package_format packIncoming = "pack" ∧
    (merge_beers default_producer_threshold default_name_threshold
        [singleExisting, packIncoming]).map (fun b => b.sub_styles) =
      [some [("b", "NEIPA")]] := by decide

/-- C2 as amended: in every merge step, a pack-classified *incoming*
contribution leaves the top-level `prices`, `descriptions`, `styles` and
`photo_urls` maps untouched by the incoming record (only the existing
record's own single-format contribution can extend them), and its price,
photo_url and description are routed into the nested `pack_info` sub-maps
keyed by its source (its url joins `pack_info.urls`).  However, the
top-level `sub_styles` map receives the incoming sub_style regardless of
format, and when the incoming contribution is single-format the *existing*
record's price is entered into the top-level `prices` map without any
check of the existing record's format. -/
theorem merge_pack_routing (e n : Beer) (s : String) :
    (get_package_format n = "pack" →
      (merge_beer_data e n).prices = some ((e.prices).getD []) ∧
      (merge_beer_data e n).descriptions = some (descsExisting e) ∧
      (merge_beer_data e n).styles = some (stylesExisting e) ∧
      (merge_beer_data e n).photo_urls = some (photosExisting e) ∧
      (truthy n.sub_style = true →
        lookupKey (((merge_beer_data e n).sub_styles).getD []) (newSrc n) =
          some (getS n.sub_style)) ∧
      (truthy n.price = true →
        lookupKey ((((merge_beer_data e n).pack_info).getD {}).prices.getD [])
          (newSrc n) = some (getS n.price)) ∧
      (truthy n.photo_url = true →
        lookupKey
          ((((merge_beer_data e n).pack_info).getD {}).photo_urls.getD [])
          (newSrc n) = some (getS n.photo_url)) ∧
      (truthy n.description = true →
        lookupKey
          ((((merge_beer_data e n).pack_info).getD {}).descriptions.getD [])
          (newSrc n) = some (getS n.description)) ∧
      (truthy n.url = true →
        getS n.url ∈ (((merge_beer_data e n).pack_info).getD {}).urls.getD [])) ∧
    (get_package_format n ≠ "pack" → e.sources = none → e.source = some s →
      truthy e.price = true →
      lookupKey (((merge_beer_data e n).prices).getD []) s =
        some (getS e.price)) := by
  constructor
  · intro hpack
    refine ⟨?_, ?_, ?_, ?_, ?_, ?_, ?_, ?_, ?_⟩
    · rw [mbd_prices]
      simp [mergedPrices, hpack]
    · rw [mbd_descriptions]
      simp [hpack]
    · rw [mbd_styles]
      simp [hpack]
    · rw [mbd_photo_urls]
      simp [mergedPhotos, hpack]
    · intro hss
      rw [mbd_sub_styles]
      simp only [hss, true_and, if_pos, Option.getD_some]
      exact lookupKey_setKey_self _ _ _
    · intro hp
      rw [mbd_pack_info]
      simp only [Option.getD_some, mergedPackInfo, hpack, if_pos, hp,
        if_true]
      exact lookupKey_setKey_self _ _ _
    · intro hp
      rw [mbd_pack_info]
      simp only [Option.getD_some, mergedPackInfo, hpack, if_pos, hp,
        if_true]
      exact lookupKey_setKey_self _ _ _
    · intro hp
      rw [mbd_pack_info]
      simp only [Option.getD_some, mergedPackInfo, hpack, if_pos, hp,
        if_true]
      exact lookupKey_setKey_self _ _ _
    · intro hu
      rw [mbd_pack_info]
      simp only [Option.getD_some, mergedPackInfo, hpack, if_pos]
      by_cases hmem :
          getS n.url ∈ (((e.pack_info).getD {}).urls).getD []
      · simp [hu, hmem]
      · simp [hu, hmem]
  · intro hsingle hnone hsome hprice
    rw [mbd_prices]
    simp only [Option.getD_some]
    have hsrc : srcList e = [s] := by
      simp [srcList, hnone, exSrc, hsome]
    rw [mergedPrices, if_pos hsingle, mergedSources]
    by_cases hm : newSrc n ∈ srcList e
    · rw [if_pos hm]
      rw [hsrc]
      simp only [List.foldl_cons, List.foldl_nil]
      rw [if_pos ⟨hsome, hprice⟩]
      exact lookupKey_setKey_self _ _ _
    · rw [if_neg hm, hsrc]
      have hne : s ≠ newSrc n := by
        intro h
        exact hm (by rw [hsrc, ← h]; exact List.mem_singleton_self s)
      simp only [List.foldl_cons, List.foldl_nil, List.cons_append,
        List.nil_append]
      have hfirst : ¬(e.source = some (newSrc n) ∧ truthy e.price = true) := by
        rintro ⟨h, -⟩
        rw [hsome] at h
        exact hne (Option.some.inj h)
      rw [if_neg hfirst]
      simp only [true_and]
      by_cases hq : truthy n.price = true
      · rw [if_pos hq, lookupKey_setKey_ne _ _ _ _ hne,
          if_pos ⟨hsome, hprice⟩]
        exact lookupKey_setKey_self _ _ _
      · rw [if_neg hq, if_pos ⟨hsome, hprice⟩]
        exact lookupKey_setKey_self _ _ _

/-- Witness for C2 (amended): the pack-incoming branch and the
existing-price branch at the concrete counterexample records. -/
theorem merge_pack_routing_witness :
    (merge_beer_data singleExisting packIncoming).prices =
      some ((singleExisting.prices).getD []) ∧
    lookupKey (((merge_beer_data packExisting singleIncoming).prices).getD [])
      "a" = some "$9.00" :=
  ⟨((merge_pack_routing singleExisting packIncoming "a").1 (by decide)).1,
   (merge_pack_routing packExisting singleIncoming "a").2 (by decide) rfl rfl
     (by decide)⟩

/-- A pack-format canonical record carrying a photo_url (for C5). -/
def packPhotoExisting : Beer :=
  { source := some "a", producer := some "p", name := some "beer 4-pack",
    photo_url := some "x.jpg" }

/-- A matching pack-format incoming record without photo (for C5). -/
def packPhotoIncoming : Beer :=
  { source := some "b", producer := some "p", name := some "beer 4-pack" }

/-- C5 counterexample: a genuine merge step (the two pack records mutually
match under `ignore_format`) after which `photo_urls` is empty, the Photo
Selection Rule on it yields `None`, yet the canonical record's scalar
`photo_url` retains the contributing record's `"x.jpg"` — a first-wins
artifact, not a re-derivation. -/
theorem merge_photo_scalar_cex :
    is_same_beer default_producer_threshold default_name_threshold
      packPhotoIncoming packPhotoExisting true = true ∧
    (merge_beers default_producer_threshold default_name_threshold
        [packPhotoExisting, packPhotoIncoming]).map
      (fun b => (b.photo_url, b.photo_urls)) = [(some "x.jpg", some [])] ∧
    choose_best_photo [] "single" = none := by decide

/-- C5 as amended: after every merge step whose resulting `photo_urls` map
is non-empty, the scalar `photo_url` equals the Photo Selection Rule
applied to that map (first non-pack non-placeholder entry in insertion
order, then first non-placeholder, then first); when the resulting map is
empty the scalar retains the existing record's `photo_url`.  The concrete
fallback chain of the claim is also verified. -/
theorem merge_photo_url_recompute (e n : Beer) (l : List (String × String)) :
    ((merge_beer_data e n).photo_urls = some l →
      (l ≠ [] →
        (merge_beer_data e n).photo_url = choose_best_photo l "single") ∧
      (l = [] → (merge_beer_data e n).photo_url = e.photo_url)) ∧
    choose_best_photo
      [("a", "http://s/pack-special.jpg"), ("b", "http://s/placeholder.png"),
       ("c", "http://s/normal.jpg")] "single" =
      some "http://s/normal.jpg" := by
  constructor
  · intro hl
    rw [mbd_photo_urls] at hl
    have hl' := Option.some.inj hl
    subst hl'
    constructor
    · intro hne
      rw [mbd_photo_url, if_pos hne]
    · intro he
      rw [mbd_photo_url, if_neg (by simp [he])]
  · decide

/-- Witness for C5 (amended): the empty-map branch at the concrete
counterexample records. -/
theorem merge_photo_url_recompute_witness :
    (merge_beer_data packPhotoExisting packPhotoIncoming).photo_url =
      packPhotoExisting.photo_url :=
  ((merge_photo_url_recompute packPhotoExisting packPhotoIncoming []).1
    (by decide)).2 rfl

/-- A raw record carrying a photo (for C6). -/
def photoRecA1 : Beer :=
  { source := some "a", producer := some "p", name := some "beer",
    photo_url := some "http://h/1.jpg" }

/-- A raw record from the same source as `photoRecA1`, different photo
(for C6). -/
def photoRecA2 : Beer :=
  { source := some "a", producer := some "p", name := some "beer",
    photo_url := some "http://h/2.jpg" }

/-- A raw record from a distinct source, different photo (for C6). -/
def photoRecB2 : Beer :=
  { source := some "b", producer := some "p", name := some "beer",
    photo_url := some "http://h/2.jpg" }

/-- C6 counterexample: two mutually matching records.  With the same source
identifier, the two processing orders yield different `photo_urls` map
contents; with distinct sources the map contents agree but the selected
scalar `photo_url` differs between the two orders (the rule picks the
first-inserted eligible photo), falsifying the claimed identical
`photo_urls` contents / identical `photo_url` selection. -/
theorem merge_order_cex :
    is_same_beer default_producer_threshold default_name_threshold
      photoRecA2 photoRecA1 true = true ∧
    is_same_beer default_producer_threshold default_name_threshold
      photoRecA1 photoRecA2 true = true ∧
    (merge_beers default_producer_threshold default_name_threshold
        [photoRecA1, photoRecA2]).map (fun b => b.photo_urls) =
      [some [("a", "http://h/2.jpg")]] ∧
    (merge_beers default_producer_threshold default_name_threshold
        [photoRecA2, photoRecA1]).map (fun b => b.photo_urls) =
      [some [("a", "http://h/1.jpg")]] ∧
    is_same_beer default_producer_threshold default_name_threshold
      photoRecB2 photoRecA1 true = true ∧
    is_same_beer default_producer_threshold default_name_threshold
      photoRecA1 photoRecB2 true = true ∧
    (merge_beers default_producer_threshold default_name_threshold
        [photoRecA1, photoRecB2]).map (fun b => b.photo_url) =
      [some "http://h/1.jpg"] ∧
    (merge_beers default_producer_threshold default_name_threshold
        [photoRecB2, photoRecA1]).map (fun b => b.photo_url) =
      [some "http://h/2.jpg"] := by decide

/-- Does a record still have all canonical collection fields unset
(a RawRecord as produced by the scrapers)? -/
def isRawRecord (b : Beer) : Bool :=
  b.sources.isNone && b.urls.isNone && b.prices.isNone &&
  b.descriptions.isNone && b.photo_urls.isNone && b.styles.isNone &&
  b.sub_styles.isNone && b.pack_info.isNone

/-- C6 as amended: for two mutually matching raw records with *distinct*
source identifiers, the two processing orders produce a single canonical
record each, with identical `sources` as sets and identical `photo_urls`
map contents as sets of key-URL pairs.  (The scalar `photo_url` selection
is the first-inserted eligible entry and may legitimately differ between
the orders, as may map contents when the two records share one source.) -/
theorem merge_order_bounded (pt nt : ℚ) (r1 r2 : Beer)
    (hr1 : isRawRecord r1 = true) (hr2 : isRawRecord r2 = true)
    (h12 : is_same_beer pt nt r2 r1 true = true)
    (h21 : is_same_beer pt nt r1 r2 true = true)
    (hs : exSrc r1 ≠ exSrc r2) :
    merge_beers pt nt [r1, r2] = [merge_beer_data r1 r2] ∧
    merge_beers pt nt [r2, r1] = [merge_beer_data r2 r1] ∧
    (((merge_beer_data r1 r2).sources).getD []).toFinset =
      (((merge_beer_data r2 r1).sources).getD []).toFinset ∧
    (((merge_beer_data r1 r2).photo_urls).getD []).toFinset =
      (((merge_beer_data r2 r1).photo_urls).getD []).toFinset := by
  simp only [isRawRecord, Bool.and_eq_true, Option.isNone_iff_eq_none]
    at hr1 hr2
  obtain ⟨⟨⟨⟨⟨⟨⟨h1src, h1url⟩, h1pr⟩, h1de⟩, h1ph⟩, h1st⟩, h1ss⟩, h1pi⟩ := hr1
  obtain ⟨⟨⟨⟨⟨⟨⟨h2src, h2url⟩, h2pr⟩, h2de⟩, h2ph⟩, h2st⟩, h2ss⟩, h2pi⟩ := hr2
  refine ⟨?_, ?_, ?_, ?_⟩
  · simp [merge_beers, mergeInto, h12]
  · simp [merge_beers, mergeInto, h21]
  · rw [mbd_sources, mbd_sources]
    have e1 : mergedSources r1 r2 = [exSrc r1, exSrc r2] := by
      rw [mergedSources, newSrc_eq_exSrc, srcList, h1src]
      simp [hs.symm]
    have e2 : mergedSources r2 r1 = [exSrc r2, exSrc r1] := by
      rw [mergedSources, newSrc_eq_exSrc, srcList, h2src]
      simp [hs]
    rw [Option.getD_some, Option.getD_some, e1, e2]
    ext x
    constructor <;> intro hx <;> simp only [List.mem_toFinset,
      List.mem_cons, List.not_mem_nil, or_false] at hx ⊢ <;> tauto
  · rw [mbd_photo_urls, mbd_photo_urls]
    have p1 : photosExisting r1 =
        (if truthy r1.photo_url = true ∧ get_package_format r1 ≠ "pack" then
          [(exSrc r1, getS r1.photo_url)] else []) := by
      by_cases c : truthy r1.photo_url = true ∧ get_package_format r1 ≠ "pack"
      · simp [photosExisting, c, h1ph, setKey]
      · simp [photosExisting, c, h1ph]
    have p2 : photosExisting r2 =
        (if truthy r2.photo_url = true ∧ get_package_format r2 ≠ "pack" then
          [(exSrc r2, getS r2.photo_url)] else []) := by
      by_cases c : truthy r2.photo_url = true ∧ get_package_format r2 ≠ "pack"
      · simp [photosExisting, c, h2ph, setKey]
      · simp [photosExisting, c, h2ph]
    rw [Option.getD_some, Option.getD_some]
    by_cases c1 : truthy r1.photo_url = true ∧ get_package_format r1 ≠ "pack"
      <;> by_cases c2 :
        truthy r2.photo_url = true ∧ get_package_format r2 ≠ "pack"
    · rw [mergedPhotos, mergedPhotos, if_pos c2, if_pos c1, p1, p2,
        if_pos c1, if_pos c2, newSrc_eq_exSrc, newSrc_eq_exSrc,
        setKey_pair hs _ _, setKey_pair hs.symm _ _]
      ext x
      constructor <;> intro hx <;> simp only [List.mem_toFinset,
        List.mem_cons, List.not_mem_nil, or_false] at hx ⊢ <;> tauto
    · rw [mergedPhotos, mergedPhotos, if_neg c2, if_pos c1, p1, p2,
        if_pos c1, if_neg c2, newSrc_eq_exSrc, setKey_nil]
    · rw [mergedPhotos, mergedPhotos, if_pos c2, if_neg c1, p1, p2,
        if_neg c1, if_pos c2, newSrc_eq_exSrc, setKey_nil]
    · rw [mergedPhotos, mergedPhotos, if_neg c2, if_neg c1, p1, p2,
        if_neg c1, if_neg c2]

/-- Witness for C6 (amended): the sources-as-sets conclusion at the
concrete distinct-source records. -/
theorem merge_order_bounded_witness :
    (((merge_beer_data photoRecA1 photoRecB2).sources).getD []).toFinset =
      (((merge_beer_data photoRecB2 photoRecA1).sources).getD []).toFinset :=
  (merge_order_bounded default_producer_threshold default_name_threshold
    photoRecA1 photoRecB2 rfl rfl (by decide) (by decide)
    (by decide)).2.2.1

/-! ## Monotonicity of the merge step (C4) -/

lemma length_le_foldl_step {α : Type}
    (step : List (String × String) → α → List (String × String))
    (hstep : ∀ m x, m.length ≤ (step m x).length) :
    ∀ (l : List α) (m : List (String × String)),
      m.length ≤ (l.foldl step m).length := by
  intro l
  induction l with
  | nil => intro m; simp
  | cons x t ih =>
    intro m
    exact le_trans (hstep m x) (ih (step m x))

lemma length_le_descsExisting (e : Beer) :
    ((e.descriptions).getD []).length ≤ (descsExisting e).length := by
  rw [descsExisting]
  split_ifs
  · exact length_le_setKey _ _ _
  · exact le_refl _

lemma length_le_stylesExisting (e : Beer) :
    ((e.styles).getD []).length ≤ (stylesExisting e).length := by
  rw [stylesExisting]
  split_ifs
  · exact length_le_setKey _ _ _
  · exact le_refl _

lemma length_le_photosExisting (e : Beer) :
    ((e.photo_urls).getD []).length ≤ (photosExisting e).length := by
  rw [photosExisting]
  split_ifs
  · exact length_le_setKey _ _ _
  · exact le_refl _

lemma length_le_subsExisting (e : Beer) :
    ((e.sub_styles).getD []).length ≤ (subsExisting e).length := by
  rw [subsExisting]
  split_ifs
  · exact length_le_setKey _ _ _
  · exact le_refl _

/-- C4: every merge step only adds information: the existing sources and
urls lists are preserved as prefixes (append-only) and stay duplicate-free,
no per-source map (top-level or inside `pack_info`) shrinks, every
non-empty scalar of the existing record keeps its value (the recomputed
`photo_url` being the sole exception), and every present field stays
present.  This holds for every call of `merge_beer_data`, in particular
for the calls performed on confirmed matches. -/
theorem merge_monotone (e n : Beer)
    (hs : (srcList e).Nodup) (hu : (urlList e).Nodup) :
    (∃ t, (merge_beer_data e n).sources = some (srcList e ++ t)) ∧
    (((merge_beer_data e n).sources).getD []).Nodup ∧
    (∃ t, (merge_beer_data e n).urls = some (urlList e ++ t)) ∧
    (((merge_beer_data e n).urls).getD []).Nodup ∧
    ((e.prices).getD []).length ≤
      (((merge_beer_data e n).prices).getD []).length ∧
    ((e.descriptions).getD []).length ≤
      (((merge_beer_data e n).descriptions).getD []).length ∧
    ((e.photo_urls).getD []).length ≤
      (((merge_beer_data e n).photo_urls).getD []).length ∧
    ((e.styles).getD []).length ≤
      (((merge_beer_data e n).styles).getD []).length ∧
    ((e.sub_styles).getD []).length ≤
      (((merge_beer_data e n).sub_styles).getD []).length ∧
    ((((e.pack_info).getD {}).urls).getD []).length ≤
      (((((merge_beer_data e n).pack_info).getD {}).urls).getD []).length ∧
    ((((e.pack_info).getD {}).prices).getD []).length ≤
      (((((merge_beer_data e n).pack_info).getD {}).prices).getD []).length ∧
    ((((e.pack_info).getD {}).photo_urls).getD []).length ≤
      (((((merge_beer_data e n).pack_info).getD
        {}).photo_urls).getD []).length ∧
    ((((e.pack_info).getD {}).descriptions).getD []).length ≤
      (((((merge_beer_data e n).pack_info).getD
        {}).descriptions).getD []).length ∧
    (truthy e.name = true → (merge_beer_data e n).name = e.name) ∧
    (truthy e.producer = true → (merge_beer_data e n).producer = e.producer) ∧
    (truthy e.volume = true → (merge_beer_data e n).volume = e.volume) ∧
    (truthy e.alcohol = true → (merge_beer_data e n).alcohol = e.alcohol) ∧
    (truthy e.ibu = true → (merge_beer_data e n).ibu = e.ibu) ∧
    (truthy e.region = true → (merge_beer_data e n).region = e.region) ∧
    (truthy e.availability = true →
      (merge_beer_data e n).availability = e.availability) ∧
    (truthy e.upc = true → (merge_beer_data e n).upc = e.upc) ∧
    (merge_beer_data e n).source = e.source ∧
    (merge_beer_data e n).url = e.url ∧
    (merge_beer_data e n).style = e.style ∧
    (merge_beer_data e n).sub_style = e.sub_style ∧
    (merge_beer_data e n).description = e.description ∧
    (merge_beer_data e n).price = e.price ∧
    (e.name.isSome → ((merge_beer_data e n).name).isSome) ∧
    (e.producer.isSome → ((merge_beer_data e n).producer).isSome) ∧
    (e.volume.isSome → ((merge_beer_data e n).volume).isSome) ∧
    (e.alcohol.isSome → ((merge_beer_data e n).alcohol).isSome) ∧
    (e.ibu.isSome → ((merge_beer_data e n).ibu).isSome) ∧
    (e.region.isSome → ((merge_beer_data e n).region).isSome) ∧
    (e.availability.isSome → ((merge_beer_data e n).availability).isSome) ∧
    (e.upc.isSome → ((merge_beer_data e n).upc).isSome) ∧
    (e.photo_url.isSome → ((merge_beer_data e n).photo_url).isSome) := by
  refine ⟨?_, ?_, ?_, ?_, ?_, ?_, ?_, ?_, ?_, ?_, ?_, ?_, ?_, ?_, ?_, ?_,
    ?_, ?_, ?_, ?_, ?_, mbd_source e n, mbd_url e n, mbd_style e n,
    mbd_sub_style e n, mbd_description e n, mbd_price e n, ?_, ?_, ?_, ?_,
    ?_, ?_, ?_, ?_, ?_⟩
  · rw [mbd_sources]
    by_cases hm : newSrc n ∈ srcList e
    · exact ⟨[], by rw [mergedSources, if_pos hm, List.append_nil]⟩
    · exact ⟨[newSrc n], by rw [mergedSources, if_neg hm]⟩
  · rw [mbd_sources, Option.getD_some, mergedSources]
    split_ifs with hm
    · exact hs
    · simp [List.nodup_append, hs, hm]
  · rw [mbd_urls]
    by_cases hc : truthy n.url = true ∧ getS n.url ∉ urlList e
    · exact ⟨[getS n.url], by rw [if_pos hc]⟩
    · exact ⟨[], by rw [if_neg hc, List.append_nil]⟩
  · rw [mbd_urls, Option.getD_some]
    split_ifs with hc
    · simp [List.nodup_append, hu, hc.2]
    · exact hu
  · rw [mbd_prices, Option.getD_some, mergedPrices]
    split_ifs with hf
    · refine length_le_foldl_step _ ?_ _ _
      intro m src
      split_ifs
      · exact length_le_setKey _ _ _
      · exact length_le_setKey _ _ _
      · exact le_refl _
    · exact le_refl _
  · rw [mbd_descriptions, Option.getD_some]
    split_ifs
    · exact le_trans (length_le_descsExisting e) (length_le_setKey _ _ _)
    · exact length_le_descsExisting e
  · rw [mbd_photo_urls, Option.getD_some, mergedPhotos]
    split_ifs
    · exact le_trans (length_le_photosExisting e) (length_le_setKey _ _ _)
    · exact length_le_photosExisting e
  · rw [mbd_styles, Option.getD_some]
    split_ifs
    · exact le_trans (length_le_stylesExisting e) (length_le_setKey _ _ _)
    · exact length_le_stylesExisting e
  · rw [mbd_sub_styles, Option.getD_some]
    split_ifs
    · exact le_trans (length_le_subsExisting e) (length_le_setKey _ _ _)
    · exact length_le_subsExisting e
  · rw [mbd_pack_info, Option.getD_some, mergedPackInfo]
    by_cases hf : get_package_format n = "pack"
    · rw [if_pos hf]
      dsimp only
      rw [Option.getD_some]
      split_ifs
      · simp
      · exact le_refl _
    · rw [if_neg hf]
  · rw [mbd_pack_info, Option.getD_some, mergedPackInfo]
    by_cases hf : get_package_format n = "pack"
    · rw [if_pos hf]
      dsimp only
      rw [Option.getD_some]
      split_ifs
      · exact length_le_setKey _ _ _
      · exact le_refl _
    · rw [if_neg hf]
  · rw [mbd_pack_info, Option.getD_some, mergedPackInfo]
    by_cases hf : get_package_format n = "pack"
    · rw [if_pos hf]
      dsimp only
      rw [Option.getD_some]
      split_ifs
      · exact length_le_setKey _ _ _
      · exact le_refl _
    · rw [if_neg hf]
  · rw [mbd_pack_info, Option.getD_some, mergedPackInfo]
    by_cases hf : get_package_format n = "pack"
    · rw [if_pos hf]
      dsimp only
      split_ifs
      · rw [Option.getD_some]
        exact length_le_setKey _ _ _
      · exact le_refl _
    · rw [if_neg hf]
  · intro h
    rw [mbd_name, if_neg]
    rintro ⟨hc, -⟩
    exact hc h
  · intro h
    rw [mbd_producer, if_neg]
    rintro ⟨hc, -⟩
    exact hc h
  · intro h
    rw [mbd_volume, if_neg]
    rintro ⟨hc, -⟩
    exact hc h
  · intro h
    rw [mbd_alcohol, if_neg]
    rintro ⟨hc, -⟩
    exact hc h
  · intro h
    rw [mbd_ibu, if_neg]
    rintro ⟨-, hc⟩
    exact hc h
  · intro h
    rw [mbd_region, if_neg]
    rintro ⟨-, hc⟩
    exact hc h
  · intro h
    rw [mbd_availability, if_neg]
    rintro ⟨-, hc⟩
    exact hc h
  · intro h
    rw [mbd_upc, if_neg]
    rintro ⟨-, hc⟩
    exact hc h
  · intro h
    rw [mbd_name]
    split_ifs <;> simp [h]
  · intro h
    rw [mbd_producer]
    split_ifs <;> simp [h]
  · intro h
    rw [mbd_volume]
    split_ifs <;> simp [h]
  · intro h
    rw [mbd_alcohol]
    split_ifs <;> simp [h]
  · intro h
    rw [mbd_ibu]
    split_ifs <;> simp [h]
  · intro h
    rw [mbd_region]
    split_ifs <;> simp [h]
  · intro h
    rw [mbd_availability]
    split_ifs <;> simp [h]
  · intro h
    rw [mbd_upc]
    split_ifs <;> simp [h]
  · intro h
    rw [mbd_photo_url]
    split_ifs with hne
    · obtain ⟨u, hu2, -⟩ := choose_best_photo_mem _ _ hne
      rw [hu2]
      rfl
    · exact h

/-- A raw record for the C4 witness. -/
def plainA : Beer :=
  { source := some "a", producer := some "p", name := some "beer",
    price := some "$1.00" }

/-- A matching raw record for the C4 witness. -/
def plainB : Beer :=
  { source := some "b", producer := some "p", name := some "beer",
    price := some "$2.00" }

/-- Witness for C4: the append-only sources conclusion at concrete
records. -/
theorem merge_monotone_witness :
    ∃ t, (merge_beer_data plainA plainB).sources =
      some (srcList plainA ++ t) :=
  (merge_monotone plainA plainB (by decide) (by decide)).1

/-! ## Isolation of records without a producer (C7) -/

lemma is_same_beer_producers (pt nt : ℚ) (b e : Beer) (ig : Bool)
    (h : is_same_beer pt nt b e ig = true) :
    truthy b.producer = true ∧ truthy e.producer = true := by
  constructor <;> rw [truthy_iff] <;> intro hc <;>
    simp [is_same_beer, hc] at h

lemma merge_keeps_truthy_producer (e n : Beer)
    (h : truthy e.producer = true) :
    (merge_beer_data e n).producer = e.producer := by
  rw [mbd_producer, if_neg]
  rintro ⟨hc, -⟩
  exact hc h

lemma mergeInto_filter (pt nt : ℚ) (b : Beer) (canon : List Beer) :
    (mergeInto pt nt b canon).filter (fun x => !truthy x.producer) =
      canon.filter (fun x => !truthy x.producer) ++
        (if truthy b.producer = true then [] else [b]) := by
  induction canon with
  | nil =>
    by_cases hb : truthy b.producer = true <;> simp [mergeInto, hb]
  | cons e rest ih =>
    by_cases hm : is_same_beer pt nt b e true = true
    · obtain ⟨hbp, hep⟩ := is_same_beer_producers _ _ _ _ _ hm
      have hmp : truthy (merge_beer_data e b).producer = true := by
        rw [merge_keeps_truthy_producer e b hep]
        exact hep
      simp only [mergeInto, if_pos hm]
      simp [List.filter_cons, hmp, hep, hbp]
    · simp only [mergeInto, if_neg hm]
      by_cases he : truthy e.producer = true <;>
        simp [List.filter_cons, he, ih]

lemma merge_fold_filter (pt nt : ℚ) (l acc : List Beer) :
    (l.foldl (fun canon b => mergeInto pt nt b canon) acc).filter
        (fun x => !truthy x.producer) =
      acc.filter (fun x => !truthy x.producer) ++
        l.filter (fun x => !truthy x.producer) := by
  induction l generalizing acc with
  | nil => simp
  | cons b t ih =>
    rw [List.foldl_cons, ih, mergeInto_filter]
    by_cases hb : truthy b.producer = true <;>
      simp [List.filter_cons, hb, List.append_assoc]

/-- C7: a record whose producer is null or empty is inert in the merge:
the canonical entries with empty producer are exactly the empty-producer
input records, in order and unchanged (each becomes its own canonical
record, is never merged into an existing entry, and no later record is
merged into it); and the match predicate rejects any comparison involving
an empty producer, for every flag value — no exception is raised anywhere,
the predicate and the fold being total functions. -/
theorem empty_producer_isolated (pt nt : ℚ) :
    (∀ beers : List Beer,
      (merge_beers pt nt beers).filter (fun b => !truthy b.producer) =
        beers.filter (fun b => !truthy b.producer)) ∧
    (∀ b1 b2 : Beer, ∀ ig : Bool,
      truthy b1.producer = false ∨ truthy b2.producer = false →
      is_same_beer pt nt b1 b2 ig = false) := by
  constructor
  · intro beers
    rw [merge_beers, merge_fold_filter]
    simp
  · intro b1 b2 ig h
    rcases h with h | h
    · have hc : getS b1.producer = "" := (truthy_false_iff _).mp h
      simp [is_same_beer, hc]
    · have hc : getS b2.producer = "" := (truthy_false_iff _).mp h
      simp [is_same_beer, hc]

/-- A raw record without producer (for the C7 witness). -/
def noProducerRec : Beer := { source := some "a", name := some "beer" }

/-- A raw record with identical name and a producer (for the C7
witness). -/
def namedRec : Beer :=
  { source := some "b", producer := some "p", name := some "beer" }

/-- Witness for C7: a producer-less record survives a concrete merge run
unchanged, and no comparison with it succeeds. -/
theorem empty_producer_isolated_witness :
    (merge_beers default_producer_threshold default_name_threshold
        [namedRec, noProducerRec]).filter (fun b => !truthy b.producer) =
      [namedRec, noProducerRec].filter (fun b => !truthy b.producer) ∧
    is_same_beer default_producer_threshold default_name_threshold
      noProducerRec namedRec true = false :=
  ⟨(empty_producer_isolated default_producer_threshold
      default_name_threshold).1 [namedRec, noProducerRec],
   (empty_producer_isolated default_producer_threshold
      default_name_threshold).2 noProducerRec namedRec true
     (Or.inl (by decide))⟩

/-! ## Idempotence of the two normalization profiles (C10) -/

lemma joinWords_nil : joinWords [] = [] := rfl

lemma joinWords_single (w : List Char) : joinWords [w] = w := rfl

lemma joinWords_cons_cons (w x : List Char) (ws : List (List Char)) :
    joinWords (w :: x :: ws) = w ++ ' ' :: joinWords (x :: ws) := rfl

lemma pyLower_idem (c : Char) : pyLower (pyLower c) = pyLower c := by
  by_cases h : 65 ≤ c.toNat ∧ c.toNat ≤ 90
  · have hv : (c.toNat + 32).isValidChar := Or.inl (by omega)
    have ht : (Char.ofNat (c.toNat + 32)).toNat = c.toNat + 32 := by
      rw [Char.ofNat, dif_pos hv]
      rfl
    have h1 : pyLower c = Char.ofNat (c.toNat + 32) := by
      rw [pyLower, if_pos h]
    rw [h1, pyLower, ht, if_neg (by omega)]
  · have h0 : pyLower c = c := by rw [pyLower, if_neg h]
    rw [h0, h0]

lemma replPunct_pyLower_idem (c : Char) :
    replPunct (pyLower (replPunct (pyLower c))) = replPunct (pyLower c) := by
  by_cases h : pyLower c ∈ punctChars
  · have h0 : replPunct (pyLower c) = ' ' := by rw [replPunct, if_pos h]
    rw [h0, show pyLower ' ' = ' ' from by decide,
      show replPunct ' ' = ' ' from by decide]
  · have h0 : replPunct (pyLower c) = pyLower c := by
      rw [replPunct, if_neg h]
    rw [h0, pyLower_idem, h0]

lemma splitWsAux_spec : ∀ (l acc : List Char),
    (∀ c ∈ acc, c.isWhitespace = false) →
    ∀ w ∈ splitWsAux acc l, w ≠ [] ∧ ∀ c ∈ w, c.isWhitespace = false := by
  intro l
  induction l with
  | nil =>
    intro acc hacc w hw
    rw [splitWsAux] at hw
    split_ifs at hw with h
    · cases hw
    · rw [List.mem_singleton] at hw
      subst hw
      refine ⟨by simpa using h, ?_⟩
      intro c hc
      exact hacc c (List.mem_reverse.mp hc)
  | cons d t ih =>
    intro acc hacc w hw
    rw [splitWsAux] at hw
    split_ifs at hw with hws hacc0
    · exact ih [] (by simp) w hw
    · rcases List.mem_cons.mp hw with hw | hw
      · subst hw
        exact ⟨by simpa using hacc0,
          fun c hc => hacc c (List.mem_reverse.mp hc)⟩
      · exact ih [] (by simp) w hw
    · refine ih (d :: acc) ?_ w hw
      intro c hc
      rcases List.mem_cons.mp hc with rfl | hc
      · simpa using hws
      · exact hacc c hc

lemma splitWsAux_chars : ∀ (l acc : List Char) (w : List Char),
    w ∈ splitWsAux acc l → ∀ c ∈ w, c ∈ acc ∨ c ∈ l := by
  intro l
  induction l with
  | nil =>
    intro acc w hw c hc
    rw [splitWsAux] at hw
    split_ifs at hw with h
    · cases hw
    · rw [List.mem_singleton] at hw
      subst hw
      exact Or.inl (List.mem_reverse.mp hc)
  | cons d t ih =>
    intro acc w hw c hc
    rw [splitWsAux] at hw
    split_ifs at hw with hws hacc0
    · rcases ih [] w hw c hc with h | h
      · cases h
      · exact Or.inr (List.mem_cons_of_mem d h)
    · rcases List.mem_cons.mp hw with hw | hw
      · subst hw
        exact Or.inl (List.mem_reverse.mp hc)
      · rcases ih [] w hw c hc with h | h
        · cases h
        · exact Or.inr (List.mem_cons_of_mem d h)
    · rcases ih (d :: acc) w hw c hc with h | h
      · rcases List.mem_cons.mp h with hcd | h
        · exact Or.inr (hcd ▸ List.mem_cons_self d t)
        · exact Or.inl h
      · exact Or.inr (List.mem_cons_of_mem d h)

lemma splitWsAux_append_word : ∀ (w acc l : List Char),
    (∀ c ∈ w, c.isWhitespace = false) →
    splitWsAux acc (w ++ l) = splitWsAux (w.reverse ++ acc) l := by
  intro w
  induction w with
  | nil =>
    intro acc l _
    simp
  | cons c w' ih =>
    intro acc l hw
    have hc : c.isWhitespace = false := hw c (List.mem_cons_self c w')
    rw [List.cons_append, splitWsAux, if_neg (by simp [hc]),
      ih (c :: acc) l (fun x hx => hw x (List.mem_cons_of_mem c hx))]
    congr 1
    simp

lemma splitWsAux_space (acc l : List Char) (hacc : acc ≠ []) :
    splitWsAux acc (' ' :: l) = acc.reverse :: splitWsAux [] l := by
  rw [splitWsAux, if_pos (by decide), if_neg hacc]

lemma splitWs_joinWords : ∀ ws : List (List Char),
    (∀ w ∈ ws, w ≠ []) →
    (∀ w ∈ ws, ∀ c ∈ w, c.isWhitespace = false) →
    splitWs (joinWords ws) = ws := by
  intro ws
  induction ws with
  | nil =>
    intro _ _
    rfl
  | cons w rest ih =>
    intro h1 h2
    have hw1 : w ≠ [] := h1 w (List.mem_cons_self w rest)
    have hw2 : ∀ c ∈ w, c.isWhitespace = false :=
      h2 w (List.mem_cons_self w rest)
    cases rest with
    | nil =>
      have hap := splitWsAux_append_word w [] [] hw2
      rw [List.append_nil] at hap
      rw [joinWords_single, splitWs, hap, splitWsAux]
      simp [hw1]
    | cons x rest' =>
      rw [joinWords_cons_cons, splitWs,
        splitWsAux_append_word w [] _ hw2, List.append_nil,
        splitWsAux_space _ _ (by simpa using hw1), List.reverse_reverse]
      congr 1
      exact ih (fun u hu => h1 u (List.mem_cons_of_mem w hu))
        (fun u hu => h2 u (List.mem_cons_of_mem w hu))

lemma map_joinWords (f : Char → Char) (hf : f ' ' = ' ') :
    ∀ ws : List (List Char),
      (joinWords ws).map f = joinWords (ws.map (fun w => w.map f)) := by
  intro ws
  induction ws with
  | nil => rfl
  | cons w rest ih =>
    cases rest with
    | nil => rfl
    | cons x rest' =>
      simp only [joinWords_cons_cons, List.map_append, List.map_cons, hf, ih]

lemma map_fixed {α : Type} (f : α → α) :
    ∀ l : List α, (∀ a ∈ l, f a = a) → l.map f = l := by
  intro l
  induction l with
  | nil =>
    intro _
    rfl
  | cons a t ih =>
    intro h
    rw [List.map_cons, h a (List.mem_cons_self a t),
      ih (fun x hx => h x (List.mem_cons_of_mem a hx))]

lemma dropWhile_eq_self (p : Char → Bool) (l : List Char)
    (h : ∀ c, l.head? = some c → p c = false) : l.dropWhile p = l := by
  cases l with
  | nil => rfl
  | cons a t =>
    rw [List.dropWhile_cons, h a rfl]
    simp

lemma pyStripL_eq_self (l : List Char)
    (hh : ∀ c, l.head? = some c → c.isWhitespace = false)
    (hl : ∀ c, l.getLast? = some c → c.isWhitespace = false) :
    pyStripL l = l := by
  rw [pyStripL, dropWhile_eq_self _ _ hh,
    dropWhile_eq_self _ _
      (fun c hc => hl c (by rwa [List.head?_reverse] at hc)),
    List.reverse_reverse]

lemma joinWords_head? (w : List Char) (ws : List (List Char)) (hw : w ≠ []) :
    (joinWords (w :: ws)).head? = w.head? := by
  cases ws with
  | nil => rfl
  | cons x ws' =>
    rw [joinWords_cons_cons]
    cases w with
    | nil => exact absurd rfl hw
    | cons a t => rfl

lemma joinWords_getLast?_mem : ∀ ws : List (List Char),
    (∀ u ∈ ws, u ≠ []) →
    ∀ c, (joinWords ws).getLast? = some c → ∃ u ∈ ws, c ∈ u := by
  intro ws
  induction ws with
  | nil =>
    intro _ c hc
    cases hc
  | cons w rest ih =>
    intro hne c hc
    cases rest with
    | nil =>
      exact ⟨w, List.mem_cons_self w [],
        List.mem_of_getLast?_eq_some (by rwa [joinWords_single] at hc)⟩
    | cons x rest' =>
      rw [joinWords_cons_cons,
        List.getLast?_append_of_ne_nil _ (by simp)] at hc
      have hJ : joinWords (x :: rest') ≠ [] := by
        have hx : x ≠ [] := hne x (by simp)
        cases rest' with
        | nil => simpa using hx
        | cons y rest'' =>
          rw [joinWords_cons_cons]
          simp
      rw [show (' ' :: joinWords (x :: rest')) = [' '] ++
          joinWords (x :: rest') from rfl,
        List.getLast?_append_of_ne_nil _ hJ] at hc
      obtain ⟨u, hu, hcu⟩ :=
        ih (fun u hu => hne u (List.mem_cons_of_mem w hu)) c hc
      exact ⟨u, List.mem_cons_of_mem w hu, hcu⟩

lemma strip_joinWords (ws : List (List Char))
    (h1 : ∀ w ∈ ws, w ≠ [])
    (h2 : ∀ w ∈ ws, ∀ c ∈ w, c.isWhitespace = false) :
    pyStripL (joinWords ws) = joinWords ws := by
  apply pyStripL_eq_self
  · intro c hc
    cases ws with
    | nil => cases hc
    | cons w rest =>
      rw [joinWords_head? w rest (h1 w (List.mem_cons_self w rest))] at hc
      exact h2 w (List.mem_cons_self w rest) c
        (List.mem_of_mem_head? (Option.mem_def.mpr hc))
  · intro c hc
    obtain ⟨u, hu, hcu⟩ := joinWords_getLast?_mem ws h1 c hc
    exact h2 u hu c hcu

lemma normTextWords_eq_filter (l : List Char) :
    normTextWords l =
      (normNameWords l).filter (fun w => ¬ w ∈ stopWords) := rfl

lemma normNameWords_props (l : List Char) :
    (∀ w ∈ normNameWords l, w ≠ []) ∧
    (∀ w ∈ normNameWords l, ∀ c ∈ w, c.isWhitespace = false) ∧
    (∀ w ∈ normNameWords l, ∀ c ∈ w, replPunct (pyLower c) = c) := by
  refine ⟨?_, ?_, ?_⟩
  · intro w hw
    exact (splitWsAux_spec _ [] (by simp) w hw).1
  · intro w hw
    exact (splitWsAux_spec _ [] (by simp) w hw).2
  · intro w hw c hc
    rcases splitWsAux_chars _ [] w hw c hc with h | h
    · cases h
    · rcases List.mem_map.mp h with ⟨c0, hc0, rfl⟩
      rcases List.mem_map.mp hc0 with ⟨c1, _, rfl⟩
      exact replPunct_pyLower_idem c1

lemma normNameWords_joinWords (ws : List (List Char))
    (h1 : ∀ w ∈ ws, w ≠ [])
    (h2 : ∀ w ∈ ws, ∀ c ∈ w, c.isWhitespace = false)
    (h3 : ∀ w ∈ ws, ∀ c ∈ w, replPunct (pyLower c) = c) :
    normNameWords (joinWords ws) = ws := by
  rw [normNameWords, List.map_map]
  have hmap : (joinWords ws).map (replPunct ∘ pyLower) = joinWords ws := by
    rw [map_joinWords _ (by decide) ws,
      map_fixed (fun w => w.map (replPunct ∘ pyLower)) ws
        (fun w hw => map_fixed (replPunct ∘ pyLower) w
          (fun c hc => h3 w hw c hc))]
  rw [hmap]
  exact splitWs_joinWords ws h1 h2

lemma normalize_beer_name_eq (t : String) (ht : t ≠ "") :
    normalize_beer_name t =
      ⟨pyStripL (joinWords (normNameWords t.data))⟩ := by
  rw [normalize_beer_name, if_neg ht]

lemma normalize_text_eq (t : String) (ht : t ≠ "") :
    normalize_text t = ⟨pyStripL (joinWords (normTextWords t.data))⟩ := by
  rw [normalize_text, if_neg ht]

/-- C10: both normalization profiles are idempotent: applying
`normalize_text` (strict producer profile) or `normalize_beer_name` (light
name profile) twice gives the same result as applying it once, for every
input string. -/
theorem normalize_idempotent (t : String) :
    normalize_text (normalize_text t) = normalize_text t ∧
    normalize_beer_name (normalize_beer_name t) = normalize_beer_name t := by
  constructor
  · by_cases ht : t = ""
    · subst ht
      rfl
    · obtain ⟨q1, q2, q3⟩ := normNameWords_props t.data
      have p1 : ∀ w ∈ normTextWords t.data, w ≠ [] := by
        intro w hw
        exact q1 w (List.mem_of_mem_filter (normTextWords_eq_filter _ ▸ hw))
      have p2 : ∀ w ∈ normTextWords t.data, ∀ c ∈ w,
          c.isWhitespace = false := by
        intro w hw
        exact q2 w (List.mem_of_mem_filter (normTextWords_eq_filter _ ▸ hw))
      have p3 : ∀ w ∈ normTextWords t.data, ∀ c ∈ w,
          replPunct (pyLower c) = c := by
        intro w hw
        exact q3 w (List.mem_of_mem_filter (normTextWords_eq_filter _ ▸ hw))
      have hstrip : pyStripL (joinWords (normTextWords t.data)) =
          joinWords (normTextWords t.data) := strip_joinWords _ p1 p2
      rw [normalize_text_eq t ht, hstrip]
      by_cases hs : (⟨joinWords (normTextWords t.data)⟩ : String) = ""
      · rw [hs]
        rfl
      · rw [normalize_text_eq _ hs]
        have hdata : (⟨joinWords (normTextWords t.data)⟩ : String).data =
            joinWords (normTextWords t.data) := rfl
        rw [hdata]
        have hwords : normTextWords (joinWords (normTextWords t.data)) =
            normTextWords t.data := by
          rw [normTextWords_eq_filter (joinWords (normTextWords t.data)),
            show normNameWords (joinWords (normTextWords t.data)) =
                normTextWords t.data from
              normNameWords_joinWords _ p1 p2 p3,
            normTextWords_eq_filter t.data, List.filter_filter]
          simp
        rw [hwords, hstrip]
  · by_cases ht : t = ""
    · subst ht
      rfl
    · obtain ⟨q1, q2, q3⟩ := normNameWords_props t.data
      have hstrip : pyStripL (joinWords (normNameWords t.data)) =
          joinWords (normNameWords t.data) := strip_joinWords _ q1 q2
      rw [normalize_beer_name_eq t ht, hstrip]
      by_cases hs : (⟨joinWords (normNameWords t.data)⟩ : String) = ""
      · rw [hs]
        rfl
      · rw [normalize_beer_name_eq _ hs]
        have hdata : (⟨joinWords (normNameWords t.data)⟩ : String).data =
            joinWords (normNameWords t.data) := rfl
        rw [hdata, normNameWords_joinWords _ q1 q2 q3, hstrip]

end BeerMerge
